import Mathlib

/-!
# Arc-length segmentation of a sampled curve (`main.go`)

A shallow embedding of `getSegmentPoints` from `main.go`, with the arithmetic of
`float64` read over an arbitrary linearly ordered field `K`; the concrete runs
are over the reals.

* `pixel.Vec`, `pixel.Line` become the structures `Vec`, `Line`.
* `pixel.Line.Len` belongs to the `pixel` library, not to this repository; the
  walk takes it as the parameter `Len`.  `IsEuclid Len` says that `Len` is the
  Euclidean length, and `hypot` is the Euclidean length over the reals.
* A Go index expression `xs[i]` panics when `i` is out of range; the embedding
  returns `Except.error (Panic.indexOutOfRange i n)` there.
* `numberOfSegments` is a Go `int`: an `Int` here; the outer loop runs
  `numberOfSegments.toNat` times and `float64(numberOfSegments)` is the cast.
* The slice `subsegments` of the outer loop is written and never read; it is
  left out.
* The sampling loop of `run` is `runSampleLoop`; `curve.Point` belongs to the
  `bezier` library and is the parameter `curvePoint`. The loop is given a number
  of iterations it may spend, and the theorem about it holds for every such
  number above 200.
* `innerAdvances`, `bodyAdvances`, `walkAdvances` and `walkIterations` count the
  `lastLine++` statements and the outer iterations of a walk; they follow the
  branches of the code and are not part of it.
-/

namespace SegmentedCurve

/-- A 2D vector (`pixel.Vec`, and `plotter.XY` through `gonumToPixel`). -/
structure Vec (K : Type) where
  X : K
  Y : K
  deriving DecidableEq

/-- A line segment from `A` to `B` (`pixel.Line`, built by `pixel.L`). -/
structure Line (K : Type) where
  A : Vec K
  B : Vec K
  deriving DecidableEq

/-- The Go runtime panic `index out of range [index] with length length`. -/
inductive Panic where
  | indexOutOfRange (index length : Nat)
  deriving DecidableEq

/-- The cursor of the walk: the variables `lastLine` and `lastPoint`. -/
structure Cursor (K : Type) where
  lastLine : Nat
  lastPoint : Vec K
  deriving DecidableEq

section Code

variable {K : Type} [LinearOrderedField K]

/-- The constant `epsilon float64 = 0.001`. -/
def epsilon : K := 1 / 1000

/-- The first loop of `getSegmentPoints`: one line per pair of consecutive
points, `lines[i] = pixel.L(points[i], points[i+1])` for `i < len(points)-1`. -/
def mkLines : List (Vec K) → List (Line K)
  | p :: q :: rest => ⟨p, q⟩ :: mkLines (q :: rest)
  | _ => []

/-- The second loop of `getSegmentPoints`: `length += line.Len()` over `lines`,
starting from `0.0`. -/
def totalLength (Len : Line K → K) (lines : List (Line K)) : K :=
  lines.foldl (fun length line => length + Len line) 0

/-- The inner loop `for step-localLength > epsilon`: reads `lines[lastLine+1]`,
adds its length to `localLength` and increments `lastLine`. Returns the final
`(localLength, lastLine)`, or the panic of the index expression. -/
def innerLoop (Len : Line K → K) (lines : List (Line K)) (step : K)
    (localLength : K) (lastLine : Nat) : Except Panic (K × Nat) :=
  if step - localLength > epsilon then
    if h : lastLine + 1 < lines.length then
      innerLoop Len lines step (localLength + Len lines[lastLine + 1]) (lastLine + 1)
    else
      Except.error (Panic.indexOutOfRange (lastLine + 1) lines.length)
  else
    Except.ok (localLength, lastLine)
termination_by lines.length - lastLine

/-- The point `t*A + (1-t)*B` of the overshoot branch. -/
def interpolate (t : K) (line : Line K) : Vec K :=
  ⟨t * line.A.X + (1 - t) * line.B.X, t * line.A.Y + (1 - t) * line.B.Y⟩

/-- One iteration of the outer loop of `getSegmentPoints`, from the cursor
`(lastLine, lastPoint)` to the next cursor; the new `lastPoint` is the point
that the iteration appends to `segmentPoints`. -/
def outerBody (Len : Line K → K) (lines : List (Line K)) (step : K)
    (c : Cursor K) : Except Panic (Cursor K) :=
  if h : c.lastLine < lines.length then
    let startLine : Line K := ⟨c.lastPoint, lines[c.lastLine].B⟩
    match innerLoop Len lines step (Len startLine) c.lastLine with
    | Except.error e => Except.error e
    | Except.ok (localLength, lastLine) =>
      if h2 : lastLine < lines.length then
        let line := lines[lastLine]
        if localLength - step > epsilon then
          let difference := localLength - step
          let t := difference / Len line
          Except.ok ⟨lastLine, interpolate t line⟩
        else
          Except.ok ⟨lastLine + 1, line.B⟩
      else
        Except.error (Panic.indexOutOfRange lastLine lines.length)
  else
    Except.error (Panic.indexOutOfRange c.lastLine lines.length)

/-- The outer loop `for i := 0; i < numberOfSegments; i++` with `n` iterations
left: runs `outerBody` and appends the new `lastPoint` to `segmentPoints`. -/
def outerLoop (Len : Line K → K) (lines : List (Line K)) (step : K) :
    Nat → Cursor K → List (Vec K) → Except Panic (List (Vec K))
  | 0, _, segmentPoints => Except.ok segmentPoints
  | n + 1, c, segmentPoints =>
    match outerBody Len lines step c with
    | Except.error e => Except.error e
    | Except.ok c' => outerLoop Len lines step n c' (segmentPoints ++ [c'.lastPoint])

/-- The function `getSegmentPoints(points, numberOfSegments)`. -/
def getSegmentPoints (Len : Line K → K) (points : List (Vec K))
    (numberOfSegments : Int) : Except Panic (List (Vec K)) :=
  let lines := mkLines points
  let length := totalLength Len lines
  let step := length / (numberOfSegments : K)
  if h : 0 < lines.length then
    let lastPoint := lines[0].A
    outerLoop Len lines step numberOfSegments.toNat ⟨0, lastPoint⟩ [lastPoint]
  else
    Except.error (Panic.indexOutOfRange 0 lines.length)

/-- The constant `dt float64 = 0.5`. -/
def dt : K := 1 / 2

/-- The constant `scaleX float64 = 300`. -/
def scaleX : K := 300

/-- The constant `scaleY float64 = 300`. -/
def scaleY : K := 300

/-- The constant `offsetX float64 = 400`. -/
def offsetX : K := 400

/-- The constant `offsetY float64 = 300`. -/
def offsetY : K := 300

/-- The sampling loop of `run`, `for t := 0.0; t < 100.0; t += dt`, from the
current `t` and `points`: it appends the point of the curve at `t / 100.0`,
scaled and offset. `curvePoint` is `curve.Point` of the `bezier` library, not of
this repository. The loop has `fuel` iterations to spend and returns `none`
when it would need more. -/
def runSampleLoop (curvePoint : K → Vec K) : Nat → K → List (Vec K) → Option (List (Vec K))
  | 0, _, _ => none
  | fuel + 1, t, points =>
    if t < 100 then
      let point := curvePoint (t / 100)
      runSampleLoop curvePoint fuel (t + dt)
        (points ++ [⟨point.X * scaleX + offsetX, point.Y * scaleY + offsetY⟩])
    else
      some points

/-- The points that `run` passes to `getSegmentPoints`: the sampling loop from
`t = 0.0` and the empty `points`. -/
def runSample (curvePoint : K → Vec K) (fuel : Nat) : Option (List (Vec K)) :=
  runSampleLoop curvePoint fuel 0 []

end Code

/-- The Euclidean length of a line over the reals (`pixel.Line.Len`, which is
`math.Hypot` of the coordinate differences). -/
noncomputable def hypot (l : Line ℝ) : ℝ :=
  Real.sqrt ((l.B.X - l.A.X) ^ 2 + (l.B.Y - l.A.Y) ^ 2)

section Notions

variable {K : Type} [LinearOrderedField K]

/-- The parameter `Len` is the Euclidean length: non-negative, with square the
sum of the squares of the coordinate differences. -/
def IsEuclid (Len : Line K → K) : Prop :=
  ∀ l : Line K, 0 ≤ Len l ∧ Len l ^ 2 = (l.B.X - l.A.X) ^ 2 + (l.B.Y - l.A.Y) ^ 2

/-- The arc length of the polyline from its first point to the start of
`lines[j]`: the sum of the lengths of the first `j` lines. -/
def arcTo (Len : Line K → K) (lines : List (Line K)) (j : Nat) : K :=
  ((lines.map Len).take j).sum

/-- The lines form a polyline: each line starts where the one before it ends. -/
def Connected (lines : List (Line K)) : Prop :=
  ∀ (i : Nat) (h : i + 1 < lines.length), lines[i].B = lines[i + 1].A

/-- The point `P` lies on the polyline at arc-length position `s`: it is the
point `f*A + (1-f)*B` of some line `lines[j]` with `0 ≤ f ≤ 1`, and `s` is the
length of the lines before `lines[j]` plus the length from `A` to `P`. -/
def OnPolylineAt (Len : Line K → K) (lines : List (Line K)) (P : Vec K) (s : K) : Prop :=
  ∃ (j : Nat) (h : j < lines.length) (f : K), 0 ≤ f ∧ f ≤ 1 ∧
    P = interpolate f lines[j] ∧ s = arcTo Len lines j + Len ⟨lines[j].A, P⟩

/-- The cursor sits on its own line `lines[lastLine]`, at arc-length position `s`. -/
def CursorAt (Len : Line K → K) (lines : List (Line K)) (c : Cursor K) (s : K) : Prop :=
  ∃ (h : c.lastLine < lines.length) (f : K), 0 ≤ f ∧ f ≤ 1 ∧
    c.lastPoint = interpolate f lines[c.lastLine] ∧
    s = arcTo Len lines c.lastLine + Len ⟨lines[c.lastLine].A, c.lastPoint⟩

/-- A counter on the inner loop: the number of times it executes `lastLine++`
before it returns or panics. It follows the recursion of `innerLoop`. -/
def innerAdvances (Len : Line K → K) (lines : List (Line K)) (step : K)
    (localLength : K) (lastLine : Nat) : Nat :=
  if step - localLength > epsilon then
    if h : lastLine + 1 < lines.length then
      1 + innerAdvances Len lines step (localLength + Len lines[lastLine + 1]) (lastLine + 1)
    else
      0
  else
    0
termination_by lines.length - lastLine

/-- A counter on one iteration of the outer loop: the inner-loop advances plus
one for the boundary snap `lastLine++` of the else branch. It follows the
branches of `outerBody`. -/
def bodyAdvances (Len : Line K → K) (lines : List (Line K)) (step : K) (c : Cursor K) : Nat :=
  if h : c.lastLine < lines.length then
    let startLine : Line K := ⟨c.lastPoint, lines[c.lastLine].B⟩
    innerAdvances Len lines step (Len startLine) c.lastLine +
      match innerLoop Len lines step (Len startLine) c.lastLine with
      | Except.error _ => 0
      | Except.ok (localLength, lastLine) =>
        if lastLine < lines.length then
          if localLength - step > epsilon then 0 else 1
        else
          0
  else
    0

/-- A counter on the outer loop with `n` iterations left: the advances and
snaps of all the iterations that run. -/
def walkAdvances (Len : Line K → K) (lines : List (Line K)) (step : K) :
    Nat → Cursor K → Nat
  | 0, _ => 0
  | n + 1, c =>
    bodyAdvances Len lines step c +
      match outerBody Len lines step c with
      | Except.error _ => 0
      | Except.ok c' => walkAdvances Len lines step n c'

/-- A counter on the outer loop with `n` iterations left: the number of
iterations that are started. -/
def walkIterations (Len : Line K → K) (lines : List (Line K)) (step : K) :
    Nat → Cursor K → Nat
  | 0, _ => 0
  | n + 1, c =>
    1 + match outerBody Len lines step c with
      | Except.error _ => 0
      | Except.ok c' => walkIterations Len lines step n c'

end Notions

section Geometry

variable {K : Type} [LinearOrderedField K]

theorem IsEuclid.nonneg {Len : Line K → K} (hE : IsEuclid Len) (l : Line K) : 0 ≤ Len l :=
  (hE l).1

theorem IsEuclid.eq_of_sq {Len : Line K → K} (hE : IsEuclid Len) (l : Line K) (c : K)
    (hc : 0 ≤ c) (h : (l.B.X - l.A.X) ^ 2 + (l.B.Y - l.A.Y) ^ 2 = c ^ 2) : Len l = c := by
  have h1 := (hE l).1
  have h2 := (hE l).2
  rw [h] at h2
  have h3 : (Len l - c) * (Len l + c) = 0 := by ring_nf; ring_nf at h2; rw [h2]; ring
  rcases mul_eq_zero.mp h3 with h4 | h4
  · linarith
  · have : Len l = 0 := by linarith
    have : c = 0 := by linarith
    linarith

theorem interpolate_one (l : Line K) : interpolate 1 l = l.A := by
  cases l with
  | mk A B => cases A; simp [interpolate]

theorem interpolate_zero (l : Line K) : interpolate 0 l = l.B := by
  cases l with
  | mk A B => cases B; simp [interpolate]

/-- Two points of one line at fractions `f` and `g` are `|f - g|` line lengths apart. -/
theorem IsEuclid.len_interpolate {Len : Line K → K} (hE : IsEuclid Len) (l : Line K) (f g : K) :
    Len ⟨interpolate f l, interpolate g l⟩ = |f - g| * Len l := by
  apply hE.eq_of_sq
  · exact mul_nonneg (abs_nonneg _) (hE.nonneg l)
  · have h2 := (hE l).2
    rw [mul_pow, sq_abs, h2]
    simp only [interpolate]
    ring

theorem IsEuclid.len_to_B {Len : Line K → K} (hE : IsEuclid Len) (l : Line K) (f : K)
    (hf : 0 ≤ f) : Len ⟨interpolate f l, l.B⟩ = f * Len l := by
  have h := hE.len_interpolate l f 0
  rw [interpolate_zero, sub_zero, abs_of_nonneg hf] at h
  exact h

theorem IsEuclid.len_from_A {Len : Line K → K} (hE : IsEuclid Len) (l : Line K) (f : K)
    (hf : f ≤ 1) : Len ⟨l.A, interpolate f l⟩ = (1 - f) * Len l := by
  have h := hE.len_interpolate l 1 f
  rw [interpolate_one, abs_of_nonneg (by linarith)] at h
  exact h

theorem IsEuclid.symm {Len : Line K → K} (hE : IsEuclid Len) (P Q : Vec K) :
    Len ⟨P, Q⟩ = Len ⟨Q, P⟩ := by
  apply hE.eq_of_sq _ _ (hE.nonneg _)
  rw [(hE ⟨Q, P⟩).2]
  ring

theorem hypot_isEuclid : IsEuclid hypot := by
  intro l
  refine ⟨Real.sqrt_nonneg _, ?_⟩
  unfold hypot
  rw [Real.sq_sqrt]
  positivity

end Geometry

section Lines

variable {K : Type}

theorem mkLines_length (points : List (Vec K)) :
    (mkLines points).length = points.length - 1 := by
  induction points with
  | nil => simp [mkLines]
  | cons p ps ih =>
    cases ps with
    | nil => simp [mkLines]
    | cons q rest => simp [mkLines, ih]

theorem mkLines_getElem (points : List (Vec K)) (i : Nat) (h : i < (mkLines points).length)
    (h1 : i < points.length) (h2 : i + 1 < points.length) :
    (mkLines points)[i] = ⟨points[i], points[i + 1]⟩ := by
  induction points generalizing i with
  | nil => simp at h1
  | cons p ps ih =>
    cases ps with
    | nil => simp at h2
    | cons q rest =>
      cases i with
      | zero => simp [mkLines]
      | succ i =>
        simp only [mkLines, List.getElem_cons_succ]
        exact ih i _ (by simpa using h1) (by simpa using h2)

theorem mkLines_connected (points : List (Vec K)) : Connected (mkLines points) := by
  intro i h
  have hl := mkLines_length points
  rw [mkLines_getElem points i (by omega) (by omega) (by omega),
    mkLines_getElem points (i + 1) (by omega) (by omega) (by omega)]

theorem mkLines_replicate (p : Vec K) (m : Nat) :
    mkLines (List.replicate (m + 1) p) = List.replicate m ⟨p, p⟩ := by
  induction m with
  | zero => simp [mkLines]
  | succ m ih =>
    rw [List.replicate_succ, List.replicate_succ, mkLines, ← List.replicate_succ, ih,
      ← List.replicate_succ]

end Lines

section Polyline

variable {K : Type} [LinearOrderedField K]

theorem foldl_add_len (Len : Line K → K) (lines : List (Line K)) (a : K) :
    lines.foldl (fun length line => length + Len line) a = a + (lines.map Len).sum := by
  induction lines generalizing a with
  | nil => simp
  | cons l ls ih => simp [ih, add_assoc]

theorem totalLength_eq_sum (Len : Line K → K) (lines : List (Line K)) :
    totalLength Len lines = (lines.map Len).sum := by
  simp [totalLength, foldl_add_len]

theorem arcTo_zero (Len : Line K → K) (lines : List (Line K)) : arcTo Len lines 0 = 0 := by
  simp [arcTo]

theorem arcTo_succ (Len : Line K → K) (lines : List (Line K)) (j : Nat)
    (h : j < lines.length) : arcTo Len lines (j + 1) = arcTo Len lines j + Len lines[j] := by
  unfold arcTo
  rw [List.sum_take_succ _ _ (by simpa using h)]
  simp

theorem arcTo_length (Len : Line K → K) (lines : List (Line K)) :
    arcTo Len lines lines.length = totalLength Len lines := by
  rw [totalLength_eq_sum, arcTo, List.take_of_length_le (by simp)]

theorem arcTo_mono {Len : Line K → K} (hE : IsEuclid Len) (lines : List (Line K))
    {j k : Nat} (hjk : j ≤ k) (hk : k ≤ lines.length) :
    arcTo Len lines j ≤ arcTo Len lines k := by
  induction k, hjk using Nat.le_induction with
  | base => exact le_refl _
  | succ k hjk ih =>
    have hk2 : k < lines.length := hk
    rw [arcTo_succ Len lines k hk2]
    have := hE.nonneg lines[k]
    have := ih (by omega)
    linarith

theorem arcTo_le_total {Len : Line K → K} (hE : IsEuclid Len) (lines : List (Line K))
    {j : Nat} (hj : j ≤ lines.length) : arcTo Len lines j ≤ totalLength Len lines := by
  rw [← arcTo_length]
  exact arcTo_mono hE lines hj (le_refl _)

theorem totalLength_nonneg {Len : Line K → K} (hE : IsEuclid Len) (lines : List (Line K)) :
    0 ≤ totalLength Len lines := by
  have := arcTo_le_total hE lines (Nat.zero_le lines.length)
  rwa [arcTo_zero] at this

/-- What the inner loop has done when it returns: it moved forward to a valid
index, added the lengths of the lines it passed, stopped because
`step - localLength > epsilon` failed, and if it advanced at all, the test
held just before the last line was added. -/
theorem innerLoop_ok (Len : Line K → K) (lines : List (Line K)) (step localLength : K)
    (lastLine : Nat) (r : K × Nat) (hj : lastLine < lines.length)
    (h : innerLoop Len lines step localLength lastLine = Except.ok r) :
    lastLine ≤ r.2 ∧ r.2 < lines.length ∧
      r.1 = localLength + (arcTo Len lines (r.2 + 1) - arcTo Len lines (lastLine + 1)) ∧
      ¬ step - r.1 > epsilon ∧
      (lastLine < r.2 → ∀ h2 : r.2 < lines.length, step - (r.1 - Len lines[r.2]) > epsilon) := by
  obtain ⟨n, hn⟩ : ∃ n, lines.length - lastLine = n := ⟨_, rfl⟩
  induction n generalizing localLength lastLine with
  | zero => omega
  | succ n ih =>
    obtain ⟨l, j⟩ := r
    rw [innerLoop] at h
    split_ifs at h with h1 h2
    · obtain ⟨a1, a2, a3, a4, a5⟩ := ih _ _ h2 h (by omega)
      simp only at a1 a2 a3 a4 a5 ⊢
      refine ⟨by omega, a2, ?_, a4, ?_⟩
      · rw [a3, arcTo_succ Len lines (lastLine + 1) h2]
        ring
      · intro _ h3
        rcases Nat.lt_or_ge (lastLine + 1) j with h4 | h4
        · exact a5 h4 h3
        · have h5 : j = lastLine + 1 := by omega
          subst h5
          have h6 : l - Len lines[lastLine + 1] = localLength := by
            rw [a3]; ring
          rw [h6]
          exact h1
    · cases h
      exact ⟨le_refl _, hj, by simp, h1, fun hlt => absurd hlt (lt_irrefl _)⟩

/-- The inner loop fails only with the panic of the read `lines[len(lines)]`. -/
theorem innerLoop_error (Len : Line K → K) (lines : List (Line K)) (step localLength : K)
    (lastLine : Nat) (e : Panic) (hj : lastLine < lines.length)
    (h : innerLoop Len lines step localLength lastLine = Except.error e) :
    e = Panic.indexOutOfRange lines.length lines.length := by
  obtain ⟨n, hn⟩ : ∃ n, lines.length - lastLine = n := ⟨_, rfl⟩
  induction n generalizing localLength lastLine with
  | zero => omega
  | succ n ih =>
    rw [innerLoop] at h
    split_ifs at h with h1 h2
    · exact ih _ _ h2 h (by omega)
    · cases h
      have : lastLine + 1 = lines.length := by omega
      rw [this]

theorem CursorAt.onPolylineAt {Len : Line K → K} {lines : List (Line K)} {c : Cursor K}
    {s : K} (h : CursorAt Len lines c s) : OnPolylineAt Len lines c.lastPoint s := by
  obtain ⟨hj, f, hf0, hf1, hP, hs⟩ := h
  exact ⟨c.lastLine, hj, f, hf0, hf1, hP, hs⟩

theorem epsilon_pos : (0 : K) < epsilon := by
  unfold epsilon
  positivity

/-- The length that the inner loop returns is the arc length from the cursor to
the end of the line it stopped on. -/
theorem innerLoop_arc {Len : Line K → K} (hE : IsEuclid Len) (lines : List (Line K))
    (step : K) (c : Cursor K) (s : K) (hc : CursorAt Len lines c s) (l : K) (j : Nat)
    (hj : c.lastLine < lines.length)
    (hin : innerLoop Len lines step (Len ⟨c.lastPoint, lines[c.lastLine].B⟩) c.lastLine =
      Except.ok (l, j)) :
    l = arcTo Len lines (j + 1) - s ∧ s ≤ arcTo Len lines (c.lastLine + 1) ∧
      Len ⟨c.lastPoint, lines[c.lastLine].B⟩ ≤ Len lines[c.lastLine] := by
  obtain ⟨_, f, hf0, hf1, hP, hs⟩ := hc
  obtain ⟨a1, a2, a3, a4, a5⟩ := innerLoop_ok Len lines step _ _ _ hj hin
  simp only at a3
  have h0 := hE.nonneg lines[c.lastLine]
  rw [hP, hE.len_to_B _ _ hf0] at a3 ⊢
  rw [hP, hE.len_from_A _ _ hf1] at hs
  rw [arcTo_succ Len lines c.lastLine hj] at a3 ⊢
  refine ⟨?_, ?_, ?_⟩
  · rw [a3, hs]; ring
  · rw [hs]; nlinarith
  · nlinarith

/-- The overshoot branch: the fraction `t` is positive and at most one, the new
point is `localLength - step` before `B`, and exactly `step` of arc length
after the previous cursor. -/
theorem overshoot_spec {Len : Line K → K} (hE : IsEuclid Len) (lines : List (Line K))
    (step : K) (hstep : 0 ≤ step) (c : Cursor K) (s : K) (hc : CursorAt Len lines c s)
    (l : K) (j : Nat) (hj : c.lastLine < lines.length) (hj2 : j < lines.length)
    (hin : innerLoop Len lines step (Len ⟨c.lastPoint, lines[c.lastLine].B⟩) c.lastLine =
      Except.ok (l, j))
    (hov : l - step > epsilon) :
    0 < Len lines[j] ∧ 0 < (l - step) / Len lines[j] ∧ (l - step) / Len lines[j] ≤ 1 ∧
      (0 < step → (l - step) / Len lines[j] < 1) ∧
      Len ⟨interpolate ((l - step) / Len lines[j]) lines[j], lines[j].B⟩ = l - step ∧
      arcTo Len lines j + Len ⟨lines[j].A, interpolate ((l - step) / Len lines[j]) lines[j]⟩ =
        s + step := by
  obtain ⟨b1, b2, b3⟩ := innerLoop_arc hE lines step c s hc l j hj hin
  obtain ⟨a1, a2, a3, a4, a5⟩ := innerLoop_ok Len lines step _ _ _ hj hin
  simp only at a1 a3 a4 a5
  have he : (0 : K) < epsilon := epsilon_pos
  have hd : 0 < l - step := lt_trans he hov
  have hle : l - step ≤ Len lines[j] ∧ (0 < step → l - step < Len lines[j]) := by
    rcases Nat.eq_or_lt_of_le a1 with h | h
    · subst h
      have : l = Len ⟨c.lastPoint, lines[c.lastLine].B⟩ := by
        rw [a3]; ring
      constructor
      · linarith
      · intro hs; linarith
    · have := a5 h hj2
      constructor
      · linarith
      · intro _; linarith
  have hpos : 0 < Len lines[j] := lt_of_lt_of_le hd hle.1
  have ht0 : 0 < (l - step) / Len lines[j] := div_pos hd hpos
  have ht1 : (l - step) / Len lines[j] ≤ 1 := (div_le_one hpos).mpr hle.1
  have htm : (l - step) / Len lines[j] * Len lines[j] = l - step :=
    div_mul_cancel₀ _ (ne_of_gt hpos)
  refine ⟨hpos, ht0, ht1, ?_, ?_, ?_⟩
  · intro hs
    exact (div_lt_one hpos).mpr (hle.2 hs)
  · rw [hE.len_to_B _ _ (le_of_lt ht0), htm]
  · rw [hE.len_from_A _ _ ht1, sub_mul, htm, one_mul, b1,
      arcTo_succ Len lines j hj2]
    ring

/-- One iteration of the outer loop, started from a cursor on its line at
arc-length position `s`: the new point lies on the polyline at a position `s'`
with `|s' - s - step| ≤ epsilon`, not before `s`, and the cursor is again on
its line unless it has left the last line. -/
theorem outerBody_spec {Len : Line K → K} (hE : IsEuclid Len) (lines : List (Line K))
    (hC : Connected lines) (step : K) (hstep : 0 ≤ step) (c c' : Cursor K) (s : K)
    (hc : CursorAt Len lines c s) (h : outerBody Len lines step c = Except.ok c') :
    ∃ s', OnPolylineAt Len lines c'.lastPoint s' ∧
      (c'.lastLine < lines.length → CursorAt Len lines c' s') ∧
      |s' - s - step| ≤ epsilon ∧ s ≤ s' ∧ c.lastLine ≤ c'.lastLine ∧
      c'.lastLine ≤ lines.length := by
  have hj : c.lastLine < lines.length := hc.1
  have he : (0 : K) < epsilon := epsilon_pos
  unfold outerBody at h
  rw [dif_pos hj] at h
  simp only at h
  cases hin : innerLoop Len lines step (Len ⟨c.lastPoint, lines[c.lastLine].B⟩) c.lastLine with
  | error e => rw [hin] at h; cases h
  | ok r =>
    obtain ⟨l, j⟩ := r
    rw [hin] at h
    simp only at h
    obtain ⟨a1, a2, a3, a4, a5⟩ := innerLoop_ok Len lines step _ _ _ hj hin
    obtain ⟨b1, b2, b3⟩ := innerLoop_arc hE lines step c s hc l j hj hin
    simp only at a1 a2 a4
    rw [dif_pos a2] at h
    split_ifs at h with hov
    · cases h
      obtain ⟨p1, p2, p3, _, p5, p6⟩ := overshoot_spec hE lines step hstep c s hc l j hj a2 hin hov
      refine ⟨s + step, ⟨j, a2, _, le_of_lt p2, p3, rfl, p6.symm⟩,
        fun _ => ⟨a2, _, le_of_lt p2, p3, rfl, p6.symm⟩, ?_, by linarith, a1, le_of_lt a2⟩
      rw [show s + step - s - step = 0 by ring, abs_zero]
      exact le_of_lt he
    · cases h
      have hs' : arcTo Len lines (j + 1) = arcTo Len lines j + Len ⟨lines[j].A, lines[j].B⟩ :=
        arcTo_succ Len lines j a2
      have hmono := arcTo_mono hE lines (Nat.succ_le_succ a1) (Nat.succ_le_of_lt a2)
      refine ⟨arcTo Len lines (j + 1), ⟨j, a2, 0, le_refl _, zero_le_one, ?_, ?_⟩, ?_, ?_,
        by linarith, Nat.le_succ_of_le a1, Nat.succ_le_of_lt a2⟩
      · exact (interpolate_zero _).symm
      · exact hs'
      · intro hlt
        simp only at hlt
        refine ⟨hlt, 1, zero_le_one, le_refl _, ?_, ?_⟩
        · simp only
          rw [interpolate_one]
          exact hC j hlt
        · simp only
          rw [hC j hlt]
          have := hE.len_from_A lines[j + 1] 1 (le_refl _)
          rw [interpolate_one] at this
          rw [this]
          ring
      · rw [abs_le]
        have : arcTo Len lines (j + 1) - s - step = l - step := by rw [b1]
        rw [this]
        push_neg at a4 hov
        constructor <;> linarith

/-- The outer loop fails at once on a cursor that is past the last line. -/
theorem outerBody_ok_lt (Len : Line K → K) (lines : List (Line K)) (step : K)
    (c c' : Cursor K) (h : outerBody Len lines step c = Except.ok c') :
    c.lastLine < lines.length := by
  by_contra hn
  unfold outerBody at h
  rw [dif_neg hn] at h
  cases h

/-- The outer loop, started from a cursor at arc-length position `s`: it appends
`n` points, which lie on the polyline at positions that never go back and
advance by `step`, up to `epsilon`, each time. -/
theorem outerLoop_spec {Len : Line K → K} (hE : IsEuclid Len) (lines : List (Line K))
    (hC : Connected lines) (step : K) (hstep : 0 ≤ step) (n : Nat) (c : Cursor K)
    (acc out : List (Vec K)) (s : K)
    (hc : c.lastLine < lines.length → CursorAt Len lines c s)
    (h : outerLoop Len lines step n c acc = Except.ok out) :
    ∃ (pts : List (Vec K)) (ss : List K), out = acc ++ pts ∧ pts.length = n ∧
      List.Forall₂ (OnPolylineAt Len lines) pts ss ∧
      List.Chain (fun a b => |b - a - step| ≤ epsilon ∧ a ≤ b) s ss := by
  induction n generalizing c acc s with
  | zero =>
    simp only [outerLoop] at h
    cases h
    exact ⟨[], [], by simp, rfl, List.Forall₂.nil, List.Chain.nil⟩
  | succ n ih =>
    simp only [outerLoop] at h
    cases hb : outerBody Len lines step c with
    | error e => rw [hb] at h; cases h
    | ok c' =>
      rw [hb] at h
      simp only at h
      have hj := outerBody_ok_lt Len lines step c c' hb
      obtain ⟨s', q1, q2, q3, q4, _, _⟩ := outerBody_spec hE lines hC step hstep c c' s (hc hj) hb
      obtain ⟨pts, ss, r1, r2, r3, r4⟩ := ih c' _ s' q2 h
      refine ⟨c'.lastPoint :: pts, s' :: ss, ?_, by simp [r2], List.Forall₂.cons q1 r3,
        List.Chain.cons ⟨q3, q4⟩ r4⟩
      rw [r1]
      simp

/-- The first cursor, at the start of the first line, is at position `0`. -/
theorem cursorAt_start {Len : Line K → K} (hE : IsEuclid Len) (lines : List (Line K))
    (h : 0 < lines.length) : CursorAt Len lines ⟨0, lines[0].A⟩ 0 := by
  refine ⟨h, 1, zero_le_one, le_refl _, (interpolate_one _).symm, ?_⟩
  have := hE.len_from_A lines[0] 1 (le_refl _)
  rw [interpolate_one] at this
  simp only
  rw [this, arcTo_zero]
  ring

/-- The result of `getSegmentPoints`: the first line's start followed by
`numberOfSegments` points of the walk, all on the polyline, at arc-length
positions that start at `0`, never go back, and advance by `step` up to
`epsilon` each. -/
theorem getSegmentPoints_spec {Len : Line K → K} (hE : IsEuclid Len) (points : List (Vec K))
    (numberOfSegments : Int) (out : List (Vec K))
    (h : getSegmentPoints Len points numberOfSegments = Except.ok out) :
    ∃ (h0 : 0 < (mkLines points).length) (pts : List (Vec K)) (ss : List K),
      out = (mkLines points)[0].A :: pts ∧ pts.length = numberOfSegments.toNat ∧
      List.Forall₂ (OnPolylineAt Len (mkLines points)) ((mkLines points)[0].A :: pts) (0 :: ss) ∧
      List.Chain (fun a b => |b - a -
        totalLength Len (mkLines points) / (numberOfSegments : K)| ≤ epsilon ∧ a ≤ b) 0 ss := by
  unfold getSegmentPoints at h
  simp only at h
  split_ifs at h with h0
  refine ⟨h0, ?_⟩
  have hc0 := cursorAt_start hE (mkLines points) h0
  rcases le_or_lt numberOfSegments 0 with hN | hN
  · rw [Int.toNat_of_nonpos hN] at h ⊢
    simp only [outerLoop] at h
    cases h
    exact ⟨[], [], rfl, rfl, List.Forall₂.cons hc0.onPolylineAt List.Forall₂.nil, List.Chain.nil⟩
  · have hstep : 0 ≤ totalLength Len (mkLines points) / (numberOfSegments : K) :=
      div_nonneg (totalLength_nonneg hE _) (by exact_mod_cast le_of_lt hN)
    obtain ⟨pts, ss, r1, r2, r3, r4⟩ := outerLoop_spec hE (mkLines points)
      (mkLines_connected points) _ hstep _ _ _ out 0 (fun _ => hc0) h
    refine ⟨pts, ss, by simpa using r1, r2, List.Forall₂.cons hc0.onPolylineAt r3, r4⟩

end Polyline

section Evaluation

variable {K : Type} [LinearOrderedField K]

theorem innerLoop_stop (Len : Line K → K) (lines : List (Line K)) (step localLength : K)
    (lastLine : Nat) (h : ¬ step - localLength > epsilon) :
    innerLoop Len lines step localLength lastLine = Except.ok (localLength, lastLine) := by
  rw [innerLoop, if_neg h]

theorem innerLoop_panic (Len : Line K → K) (lines : List (Line K)) (step localLength : K)
    (lastLine : Nat) (h : step - localLength > epsilon) (h1 : ¬ lastLine + 1 < lines.length) :
    innerLoop Len lines step localLength lastLine =
      Except.error (Panic.indexOutOfRange (lastLine + 1) lines.length) := by
  rw [innerLoop, if_pos h, dif_neg h1]

theorem outerBody_panic (Len : Line K → K) (lines : List (Line K)) (step : K) (c : Cursor K)
    (h : ¬ c.lastLine < lines.length) :
    outerBody Len lines step c = Except.error (Panic.indexOutOfRange c.lastLine lines.length) := by
  rw [outerBody, dif_neg h]

theorem outerBody_inner_panic (Len : Line K → K) (lines : List (Line K)) (step : K)
    (c : Cursor K) (line0 : Line K) (e : Panic) (h0 : lines[c.lastLine]? = some line0)
    (hin : innerLoop Len lines step (Len ⟨c.lastPoint, line0.B⟩) c.lastLine = Except.error e) :
    outerBody Len lines step c = Except.error e := by
  obtain ⟨h2, h3⟩ := List.getElem?_eq_some_iff.mp h0
  subst h3
  rw [outerBody, dif_pos h2]
  simp only
  rw [hin]

theorem outerBody_snap (Len : Line K → K) (lines : List (Line K)) (step : K)
    (c : Cursor K) (line0 line : Line K) (localLength : K) (lastLine : Nat)
    (h0 : lines[c.lastLine]? = some line0)
    (hin : innerLoop Len lines step (Len ⟨c.lastPoint, line0.B⟩) c.lastLine =
      Except.ok (localLength, lastLine))
    (h1 : lines[lastLine]? = some line) (hs : ¬ localLength - step > epsilon) :
    outerBody Len lines step c = Except.ok ⟨lastLine + 1, line.B⟩ := by
  obtain ⟨h2, h3⟩ := List.getElem?_eq_some_iff.mp h0
  obtain ⟨h4, h5⟩ := List.getElem?_eq_some_iff.mp h1
  subst h3 h5
  rw [outerBody, dif_pos h2]
  simp only
  rw [hin]
  simp only
  rw [dif_pos h4, if_neg hs]

theorem outerBody_overshoot (Len : Line K → K) (lines : List (Line K)) (step : K)
    (c : Cursor K) (line0 line : Line K) (localLength : K) (lastLine : Nat)
    (h0 : lines[c.lastLine]? = some line0)
    (hin : innerLoop Len lines step (Len ⟨c.lastPoint, line0.B⟩) c.lastLine =
      Except.ok (localLength, lastLine))
    (h1 : lines[lastLine]? = some line) (hs : localLength - step > epsilon) :
    outerBody Len lines step c =
      Except.ok ⟨lastLine, interpolate ((localLength - step) / Len line) line⟩ := by
  obtain ⟨h2, h3⟩ := List.getElem?_eq_some_iff.mp h0
  obtain ⟨h4, h5⟩ := List.getElem?_eq_some_iff.mp h1
  subst h3 h5
  rw [outerBody, dif_pos h2]
  simp only
  rw [hin]
  simp only
  rw [dif_pos h4, if_pos hs]

theorem outerLoop_succ_ok (Len : Line K → K) (lines : List (Line K)) (step : K) (n : Nat)
    (c c' : Cursor K) (acc : List (Vec K)) (h : outerBody Len lines step c = Except.ok c') :
    outerLoop Len lines step (n + 1) c acc =
      outerLoop Len lines step n c' (acc ++ [c'.lastPoint]) := by
  simp only [outerLoop, h]

theorem outerLoop_succ_error (Len : Line K → K) (lines : List (Line K)) (step : K) (n : Nat)
    (c : Cursor K) (acc : List (Vec K)) (e : Panic)
    (h : outerBody Len lines step c = Except.error e) :
    outerLoop Len lines step (n + 1) c acc = Except.error e := by
  simp only [outerLoop, h]

theorem getSegmentPoints_cons (Len : Line K → K) (p q : Vec K) (rest : List (Vec K))
    (numberOfSegments : Int) :
    getSegmentPoints Len (p :: q :: rest) numberOfSegments =
      outerLoop Len (mkLines (p :: q :: rest))
        (totalLength Len (mkLines (p :: q :: rest)) / (numberOfSegments : K))
        numberOfSegments.toNat ⟨0, p⟩ [p] := by
  unfold getSegmentPoints
  simp [mkLines]

end Evaluation

section Shape

variable {K : Type} [LinearOrderedField K]

/-- The cursor never leaves the range `0 .. len(lines)`. -/
theorem outerBody_le (Len : Line K → K) (lines : List (Line K)) (step : K) (c c' : Cursor K)
    (h : outerBody Len lines step c = Except.ok c') : c'.lastLine ≤ lines.length := by
  have hj := outerBody_ok_lt Len lines step c c' h
  unfold outerBody at h
  rw [dif_pos hj] at h
  simp only at h
  cases hin : innerLoop Len lines step (Len ⟨c.lastPoint, lines[c.lastLine].B⟩) c.lastLine with
  | error e => rw [hin] at h; cases h
  | ok r =>
    obtain ⟨l, j⟩ := r
    rw [hin] at h
    simp only at h
    obtain ⟨_, a2, _, _, _⟩ := innerLoop_ok Len lines step _ _ _ hj hin
    simp only at a2
    rw [dif_pos a2] at h
    split_ifs at h with hov
    · cases h; exact le_of_lt a2
    · cases h; exact Nat.succ_le_of_lt a2

/-- One iteration fails only with the panic of the read `lines[len(lines)]`. -/
theorem outerBody_error (Len : Line K → K) (lines : List (Line K)) (step : K) (c : Cursor K)
    (e : Panic) (hc : c.lastLine ≤ lines.length)
    (h : outerBody Len lines step c = Except.error e) :
    e = Panic.indexOutOfRange lines.length lines.length := by
  unfold outerBody at h
  by_cases hj : c.lastLine < lines.length
  · rw [dif_pos hj] at h
    simp only at h
    cases hin : innerLoop Len lines step (Len ⟨c.lastPoint, lines[c.lastLine].B⟩) c.lastLine with
    | error e2 =>
      rw [hin] at h
      cases h
      exact innerLoop_error Len lines step _ _ _ hj hin
    | ok r =>
      obtain ⟨l, j⟩ := r
      rw [hin] at h
      simp only at h
      obtain ⟨_, a2, _, _, _⟩ := innerLoop_ok Len lines step _ _ _ hj hin
      simp only at a2
      rw [dif_pos a2] at h
      split_ifs at h
  · rw [dif_neg hj] at h
    cases h
    have : c.lastLine = lines.length := by omega
    rw [this]

theorem outerLoop_error (Len : Line K → K) (lines : List (Line K)) (step : K) (n : Nat)
    (c : Cursor K) (acc : List (Vec K)) (e : Panic) (hc : c.lastLine ≤ lines.length)
    (h : outerLoop Len lines step n c acc = Except.error e) :
    e = Panic.indexOutOfRange lines.length lines.length := by
  induction n generalizing c acc with
  | zero => simp only [outerLoop] at h; cases h
  | succ n ih =>
    simp only [outerLoop] at h
    cases hb : outerBody Len lines step c with
    | error e2 =>
      rw [hb] at h
      cases h
      exact outerBody_error Len lines step c _ hc hb
    | ok c' =>
      rw [hb] at h
      exact ih c' _ (outerBody_le Len lines step c c' hb) h

/-- The outer loop only appends: it adds one point per iteration. -/
theorem outerLoop_appends (Len : Line K → K) (lines : List (Line K)) (step : K) (n : Nat)
    (c : Cursor K) (acc out : List (Vec K))
    (h : outerLoop Len lines step n c acc = Except.ok out) :
    ∃ pts : List (Vec K), out = acc ++ pts ∧ pts.length = n := by
  induction n generalizing c acc with
  | zero =>
    simp only [outerLoop] at h
    cases h
    exact ⟨[], by simp, rfl⟩
  | succ n ih =>
    simp only [outerLoop] at h
    cases hb : outerBody Len lines step c with
    | error e => rw [hb] at h; cases h
    | ok c' =>
      rw [hb] at h
      obtain ⟨pts, r1, r2⟩ := ih c' _ h
      exact ⟨c'.lastPoint :: pts, by rw [r1]; simp, by simp [r2]⟩

/-- A returned sequence is the first input point followed by one point per
iteration of the outer loop. -/
theorem getSegmentPoints_shape (Len : Line K → K) (points : List (Vec K))
    (numberOfSegments : Int) (out : List (Vec K))
    (h : getSegmentPoints Len points numberOfSegments = Except.ok out) :
    ∃ (p : Vec K) (pts : List (Vec K)), points.head? = some p ∧ out = p :: pts ∧
      pts.length = numberOfSegments.toNat := by
  cases points with
  | nil => simp [getSegmentPoints, mkLines] at h
  | cons p ps =>
    cases ps with
    | nil => simp [getSegmentPoints, mkLines] at h
    | cons q rest =>
      rw [getSegmentPoints_cons] at h
      obtain ⟨pts, r1, r2⟩ := outerLoop_appends Len _ _ _ _ _ _ h
      exact ⟨p, pts, rfl, by simpa using r1, r2⟩

theorem forall₂_mem {α β : Type} (R : α → β → Prop) (xs : List α) (ys : List β)
    (h : List.Forall₂ R xs ys) (x : α) (hx : x ∈ xs) : ∃ y, R x y := by
  induction h with
  | nil => cases hx
  | cons hab _ ih =>
    rcases List.mem_cons.mp hx with rfl | hm
    · exact ⟨_, hab⟩
    · exact ih hm

end Shape

section Runs

theorem hypot_horizontal (a b y : ℝ) : hypot ⟨⟨a, y⟩, ⟨b, y⟩⟩ = |b - a| := by
  simp [hypot, Real.sqrt_sq_eq_abs]

/-- The walk over `0, 1.0008, 2.0016, 3` on the X axis in three steps: two
boundary snaps, each `0.0008` ahead, then the inner loop reads `lines[3]`. -/
theorem run_drift_ahead :
    getSegmentPoints hypot [⟨0, 0⟩, ⟨1.0008, 0⟩, ⟨2.0016, 0⟩, ⟨3, 0⟩] 3 =
      Except.error (Panic.indexOutOfRange 3 3) := by
  have hstep : totalLength hypot (mkLines [⟨0, 0⟩, ⟨1.0008, 0⟩, ⟨2.0016, 0⟩, ⟨3, 0⟩]) /
      ((3 : Int) : ℝ) = 1 := by
    simp only [mkLines, totalLength, List.foldl, hypot_horizontal]
    norm_num [abs_of_nonneg]
  rw [getSegmentPoints_cons, hstep]
  simp only [mkLines]
  have e0 : (3 : Int).toNat = 2 + 1 := rfl
  rw [e0]
  rw [outerLoop_succ_ok _ _ _ _ _ ⟨1, ⟨1.0008, 0⟩⟩ _
    (outerBody_snap _ _ _ _ ⟨⟨0, 0⟩, ⟨1.0008, 0⟩⟩ ⟨⟨0, 0⟩, ⟨1.0008, 0⟩⟩ 1.0008 0 rfl
      (by rw [innerLoop_stop] <;> norm_num [hypot_horizontal, epsilon, abs_of_nonneg]) rfl
      (by norm_num [epsilon]))]
  rw [outerLoop_succ_ok _ _ _ _ _ ⟨2, ⟨2.0016, 0⟩⟩ _
    (outerBody_snap _ _ _ _ ⟨⟨1.0008, 0⟩, ⟨2.0016, 0⟩⟩ ⟨⟨1.0008, 0⟩, ⟨2.0016, 0⟩⟩ 1.0008 1 rfl
      (by rw [innerLoop_stop] <;> norm_num [hypot_horizontal, epsilon, abs_of_nonneg]) rfl
      (by norm_num [epsilon]))]
  rw [outerLoop_succ_error _ _ _ _ _ _ (Panic.indexOutOfRange 3 3)
    (outerBody_inner_panic _ _ _ _ ⟨⟨2.0016, 0⟩, ⟨3, 0⟩⟩ _ rfl
      (by rw [innerLoop_panic] <;> norm_num [hypot_horizontal, epsilon, abs_of_nonneg]))]

/-- The walk over `0, 0.9992, 1.9984, 2` on the X axis in two steps: two
boundary snaps, each `0.0008` short of the step. -/
theorem run_drift_behind :
    getSegmentPoints hypot [⟨0, 0⟩, ⟨0.9992, 0⟩, ⟨1.9984, 0⟩, ⟨2, 0⟩] 2 =
      Except.ok [⟨0, 0⟩, ⟨0.9992, 0⟩, ⟨1.9984, 0⟩] := by
  have hstep : totalLength hypot (mkLines [⟨0, 0⟩, ⟨0.9992, 0⟩, ⟨1.9984, 0⟩, ⟨2, 0⟩]) /
      ((2 : Int) : ℝ) = 1 := by
    simp only [mkLines, totalLength, List.foldl, hypot_horizontal]
    norm_num [abs_of_nonneg]
  rw [getSegmentPoints_cons, hstep]
  simp only [mkLines]
  have e0 : (2 : Int).toNat = 1 + 1 := rfl
  rw [e0]
  rw [outerLoop_succ_ok _ _ _ _ _ ⟨1, ⟨0.9992, 0⟩⟩ _
    (outerBody_snap _ _ _ _ ⟨⟨0, 0⟩, ⟨0.9992, 0⟩⟩ ⟨⟨0, 0⟩, ⟨0.9992, 0⟩⟩ 0.9992 0 rfl
      (by rw [innerLoop_stop] <;> norm_num [hypot_horizontal, epsilon, abs_of_nonneg]) rfl
      (by norm_num [epsilon]))]
  rw [outerLoop_succ_ok _ _ _ _ _ ⟨2, ⟨1.9984, 0⟩⟩ _
    (outerBody_snap _ _ _ _ ⟨⟨0.9992, 0⟩, ⟨1.9984, 0⟩⟩ ⟨⟨0.9992, 0⟩, ⟨1.9984, 0⟩⟩ 0.9992 1 rfl
      (by rw [innerLoop_stop] <;> norm_num [hypot_horizontal, epsilon, abs_of_nonneg]) rfl
      (by norm_num [epsilon]))]
  rfl

/-- One iteration over the single line from `(0,0)` to `(2,0)` with `step = 1`:
the overshoot branch puts the cursor at `(1,0)` and keeps `lastLine = 0`. -/
theorem body_halfway :
    outerBody hypot [⟨⟨0, 0⟩, ⟨2, 0⟩⟩] 1 ⟨0, ⟨0, 0⟩⟩ = Except.ok ⟨0, ⟨1, 0⟩⟩ := by
  rw [outerBody_overshoot _ _ _ _ ⟨⟨0, 0⟩, ⟨2, 0⟩⟩ ⟨⟨0, 0⟩, ⟨2, 0⟩⟩ 2 0 rfl
    (by rw [innerLoop_stop] <;> norm_num [hypot_horizontal, epsilon, abs_of_nonneg]) rfl
    (by norm_num [epsilon])]
  norm_num [interpolate, hypot_horizontal, abs_of_nonneg]

/-- The walk over the single line from `(0,0)` to `(2,0)` in two steps: the
overshoot branch gives the midpoint, then a snap gives the end. -/
theorem run_halves :
    getSegmentPoints hypot [⟨0, 0⟩, ⟨2, 0⟩] 2 = Except.ok [⟨0, 0⟩, ⟨1, 0⟩, ⟨2, 0⟩] := by
  have hstep : totalLength hypot (mkLines [⟨0, 0⟩, ⟨2, 0⟩]) / ((2 : Int) : ℝ) = 1 := by
    simp only [mkLines, totalLength, List.foldl, hypot_horizontal]
    norm_num [abs_of_nonneg]
  rw [getSegmentPoints_cons, hstep]
  simp only [mkLines]
  have e0 : (2 : Int).toNat = 1 + 1 := rfl
  rw [e0]
  rw [outerLoop_succ_ok _ _ _ _ _ ⟨0, ⟨1, 0⟩⟩ _ body_halfway]
  rw [outerLoop_succ_ok _ _ _ _ _ ⟨1, ⟨2, 0⟩⟩ _
    (outerBody_snap _ _ _ _ ⟨⟨0, 0⟩, ⟨2, 0⟩⟩ ⟨⟨0, 0⟩, ⟨2, 0⟩⟩ 1 0 rfl
      (by rw [innerLoop_stop] <;> norm_num [hypot_horizontal, epsilon, abs_of_nonneg]) rfl
      (by norm_num [epsilon]))]
  rfl

/-- The walk over two equal points in two steps: the first step snaps to the end
of the only line, and the second reads `lines[1]`. -/
theorem run_single_point_pair :
    getSegmentPoints hypot [⟨0, 0⟩, ⟨0, 0⟩] 2 = Except.error (Panic.indexOutOfRange 1 1) := by
  have hstep : totalLength hypot (mkLines [⟨0, 0⟩, ⟨0, 0⟩]) / ((2 : Int) : ℝ) = 0 := by
    simp only [mkLines, totalLength, List.foldl, hypot_horizontal]
    norm_num
  rw [getSegmentPoints_cons, hstep]
  simp only [mkLines]
  have e0 : (2 : Int).toNat = 1 + 1 := rfl
  rw [e0]
  rw [outerLoop_succ_ok _ _ _ _ _ ⟨1, ⟨0, 0⟩⟩ _
    (outerBody_snap _ _ _ _ ⟨⟨0, 0⟩, ⟨0, 0⟩⟩ ⟨⟨0, 0⟩, ⟨0, 0⟩⟩ 0 0 rfl
      (by rw [innerLoop_stop] <;> norm_num [hypot_horizontal, epsilon]) rfl
      (by norm_num [epsilon]))]
  rw [outerLoop_succ_error _ _ _ _ _ _ (Panic.indexOutOfRange 1 1)
    (outerBody_panic _ _ _ _ (by norm_num))]

end Runs

section Degenerate

variable {K : Type} [LinearOrderedField K]

theorem IsEuclid.len_self {Len : Line K → K} (hE : IsEuclid Len) (p : Vec K) :
    Len ⟨p, p⟩ = 0 := by
  apply hE.eq_of_sq _ _ (le_refl _)
  simp

theorem totalLength_replicate {Len : Line K → K} (hE : IsEuclid Len) (p : Vec K) (m : Nat) :
    totalLength Len (List.replicate m ⟨p, p⟩) = 0 := by
  rw [totalLength_eq_sum, List.map_replicate, hE.len_self, List.sum_replicate]
  simp

/-- One iteration over lines that are all the single point `p`, with `step = 0`:
a snap to the end of the current line. -/
theorem outerBody_replicate {Len : Line K → K} (hE : IsEuclid Len) (p : Vec K) (m k : Nat)
    (hk : k < m) :
    outerBody Len (List.replicate m ⟨p, p⟩) 0 ⟨k, p⟩ = Except.ok ⟨k + 1, p⟩ := by
  have he : (0 : K) < epsilon := epsilon_pos
  have hg : (List.replicate m (⟨p, p⟩ : Line K))[k]? = some ⟨p, p⟩ := by
    rw [List.getElem?_replicate, if_pos hk]
  have hb := outerBody_snap Len (List.replicate m ⟨p, p⟩) 0 ⟨k, p⟩ ⟨p, p⟩ ⟨p, p⟩ 0 k hg
    (by
      simp only
      rw [hE.len_self]
      exact innerLoop_stop Len _ 0 0 k (by rw [sub_zero]; exact not_lt.mpr (le_of_lt he)))
    hg (by rw [sub_zero]; exact not_lt.mpr (le_of_lt he))
  exact hb

/-- The outer loop over lines that are all the single point `p`: every
iteration snaps, so it returns exactly when enough lines are left. -/
theorem outerLoop_replicate {Len : Line K → K} (hE : IsEuclid Len) (p : Vec K) (m n k : Nat)
    (acc : List (Vec K)) (hk : k ≤ m) :
    outerLoop Len (List.replicate m ⟨p, p⟩) 0 n ⟨k, p⟩ acc =
      if k + n ≤ m then Except.ok (acc ++ List.replicate n p)
      else Except.error (Panic.indexOutOfRange m m) := by
  induction n generalizing k acc with
  | zero => simp [outerLoop, hk]
  | succ n ih =>
    rcases Nat.lt_or_ge k m with hlt | hge
    · rw [outerLoop_succ_ok Len _ _ _ _ _ _ (outerBody_replicate hE p m k hlt), ih (k + 1) _ hlt]
      have e1 : k + 1 + n = k + (n + 1) := by omega
      rw [e1, List.replicate_succ]
      simp
    · have hkm : k = m := by omega
      subst hkm
      have hp := outerBody_panic Len (List.replicate k (⟨p, p⟩ : Line K)) 0 ⟨k, p⟩
        (by simp)
      rw [outerLoop_succ_error Len _ _ _ _ _ _ hp, if_neg (by omega)]
      simp

/-- The walk over `m + 2` copies of one point: `N + 1` copies when
`N ≤ m + 1`, the number of lines, and the panic otherwise. -/
theorem getSegmentPoints_replicate {Len : Line K → K} (hE : IsEuclid Len) (p : Vec K)
    (m : Nat) (N : Int) :
    getSegmentPoints Len (List.replicate (m + 2) p) N =
      if N.toNat ≤ m + 1 then Except.ok (List.replicate (N.toNat + 1) p)
      else Except.error (Panic.indexOutOfRange (m + 1) (m + 1)) := by
  have e : List.replicate (m + 2) p = p :: p :: List.replicate m p := by
    rw [List.replicate_succ, List.replicate_succ]
  rw [e, getSegmentPoints_cons, ← e, mkLines_replicate, totalLength_replicate hE, zero_div,
    outerLoop_replicate hE p (m + 1) _ 0 _ (Nat.zero_le _)]
  simp only [Nat.zero_add]
  split_ifs
  · rw [List.replicate_succ]
    rfl
  · rfl

end Degenerate

section Sampling

variable {K : Type} [LinearOrderedField K]

/-- The sampling loop from `t = k * dt` with `m = 200 - k` values to go and more
than `m` iterations of fuel: it appends the points at `i * dt / 100` for
`i = k, ..., 199` and stops by its test `t < 100`. -/
theorem runSampleLoop_from (curvePoint : K → Vec K) (m k fuel : Nat) (points : List (Vec K))
    (hk : k + m = 200) (hf : m < fuel) :
    runSampleLoop curvePoint fuel ((k : K) * dt) points =
      some (points ++ (List.range' k m).map (fun i : Nat =>
        (⟨(curvePoint ((i : K) * dt / 100)).X * scaleX + offsetX,
          (curvePoint ((i : K) * dt / 100)).Y * scaleY + offsetY⟩ : Vec K))) := by
  induction m generalizing k fuel points with
  | zero =>
    obtain ⟨f, rfl⟩ : ∃ f, fuel = f + 1 := ⟨fuel - 1, by omega⟩
    have hk2 : k = 200 := by omega
    subst hk2
    have hge : ¬ ((200 : Nat) : K) * dt < 100 := by
      unfold dt
      norm_num
    rw [runSampleLoop, if_neg hge]
    simp
  | succ m ih =>
    obtain ⟨f, rfl⟩ : ∃ f, fuel = f + 1 := ⟨fuel - 1, by omega⟩
    have hlt : (k : K) * dt < 100 := by
      have h1 : (k : K) ≤ 199 := by exact_mod_cast (show k ≤ 199 by omega)
      unfold dt
      linarith
    have hnext : (k : K) * dt + dt = ((k + 1 : Nat) : K) * dt := by
      push_cast
      ring
    rw [runSampleLoop, if_pos hlt]
    simp only
    rw [hnext, ih (k + 1) f _ (by omega) (by omega), List.range'_succ]
    simp

end Sampling

section Trace

variable {K : Type} [LinearOrderedField K]

end Trace

section Counters

variable {K : Type} [LinearOrderedField K]

/-- Each inner-loop iteration increases `lastLine` by one: the loop ends
`innerAdvances` after its start. -/
theorem innerAdvances_eq (Len : Line K → K) (lines : List (Line K)) (step localLength : K)
    (lastLine : Nat) (r : K × Nat)
    (h : innerLoop Len lines step localLength lastLine = Except.ok r) :
    r.2 = lastLine + innerAdvances Len lines step localLength lastLine := by
  obtain ⟨n, hn⟩ : ∃ n, lines.length - lastLine = n := ⟨_, rfl⟩
  induction n generalizing localLength lastLine with
  | zero =>
    rw [innerLoop] at h
    rw [innerAdvances]
    split_ifs at h ⊢ with h1 h2
    · omega
    · cases h
      rfl
  | succ n ih =>
    rw [innerLoop] at h
    rw [innerAdvances]
    split_ifs at h ⊢ with h1 h2
    · rw [ih _ _ h (by omega)]
      omega
    · cases h
      rfl

/-- The inner loop advances only to valid indices. -/
theorem innerAdvances_lt (Len : Line K → K) (lines : List (Line K)) (step localLength : K)
    (lastLine : Nat) (hj : lastLine < lines.length) :
    lastLine + innerAdvances Len lines step localLength lastLine < lines.length := by
  obtain ⟨n, hn⟩ : ∃ n, lines.length - lastLine = n := ⟨_, rfl⟩
  induction n generalizing localLength lastLine with
  | zero => omega
  | succ n ih =>
    rw [innerAdvances]
    split_ifs with h1 h2
    · have := ih (localLength + Len lines[lastLine + 1]) (lastLine + 1) h2 (by omega)
      omega
    · exact hj
    · exact hj

/-- The advances and the snap of one iteration keep `lastLine` within
`len(lines)`. -/
theorem bodyAdvances_le (Len : Line K → K) (lines : List (Line K)) (step : K) (c : Cursor K)
    (hc : c.lastLine ≤ lines.length) :
    c.lastLine + bodyAdvances Len lines step c ≤ lines.length := by
  unfold bodyAdvances
  by_cases hj : c.lastLine < lines.length
  · rw [dif_pos hj]
    simp only
    have h1 := innerAdvances_lt Len lines step (Len ⟨c.lastPoint, lines[c.lastLine].B⟩)
      c.lastLine hj
    cases hin : innerLoop Len lines step (Len ⟨c.lastPoint, lines[c.lastLine].B⟩) c.lastLine with
    | error e => simp only; omega
    | ok r =>
      obtain ⟨l, j⟩ := r
      simp only
      split_ifs <;> omega
  · rw [dif_neg hj]
    omega

/-- An iteration that completes ends `bodyAdvances` after its start. -/
theorem bodyAdvances_eq (Len : Line K → K) (lines : List (Line K)) (step : K)
    (c c' : Cursor K) (h : outerBody Len lines step c = Except.ok c') :
    c'.lastLine = c.lastLine + bodyAdvances Len lines step c := by
  have hj := outerBody_ok_lt Len lines step c c' h
  unfold outerBody at h
  unfold bodyAdvances
  rw [dif_pos hj] at h ⊢
  simp only at h ⊢
  cases hin : innerLoop Len lines step (Len ⟨c.lastPoint, lines[c.lastLine].B⟩) c.lastLine with
  | error e => rw [hin] at h; cases h
  | ok r =>
    obtain ⟨l, j⟩ := r
    rw [hin] at h
    simp only at h ⊢
    have h1 := innerAdvances_eq Len lines step _ _ _ hin
    simp only at h1
    obtain ⟨_, a2, _, _, _⟩ := innerLoop_ok Len lines step _ _ _ hj hin
    simp only at a2
    rw [dif_pos a2] at h
    rw [if_pos a2]
    split_ifs at h ⊢ with hov
    · cases h
      simp only
      omega
    · cases h
      simp only
      omega

theorem walkAdvances_le (Len : Line K → K) (lines : List (Line K)) (step : K) (n : Nat)
    (c : Cursor K) (hc : c.lastLine ≤ lines.length) :
    c.lastLine + walkAdvances Len lines step n c ≤ lines.length := by
  induction n generalizing c with
  | zero => simpa [walkAdvances] using hc
  | succ n ih =>
    simp only [walkAdvances]
    have h1 := bodyAdvances_le Len lines step c hc
    cases hb : outerBody Len lines step c with
    | error e => simp only; omega
    | ok c' =>
      simp only
      have h2 := bodyAdvances_eq Len lines step c c' hb
      have h3 := ih c' (outerBody_le Len lines step c c' hb)
      omega

theorem walkIterations_le (Len : Line K → K) (lines : List (Line K)) (step : K) (n : Nat)
    (c : Cursor K) : walkIterations Len lines step n c ≤ n := by
  induction n generalizing c with
  | zero => simp [walkIterations]
  | succ n ih =>
    simp only [walkIterations]
    cases hb : outerBody Len lines step c with
    | error e => simp only; omega
    | ok c' =>
      simp only
      have := ih c'
      omega

end Counters

section Claims

variable {K : Type} [LinearOrderedField K]

/-- C1: four points on the X axis, `0, 1.0008, 2.0016, 3`, with
`numberOfSegments = 3`: the total length is positive, `epsilon ≤ step/1000`
holds with `step = 1`, and `getSegmentPoints` does not return `N+1` points: it
stops at the out-of-range read `lines[3]` of its three lines. -/
theorem getSegmentPoints_overrun_within_tolerance :
    0 < totalLength hypot (mkLines [⟨0, 0⟩, ⟨1.0008, 0⟩, ⟨2.0016, 0⟩, ⟨3, 0⟩]) ∧
      (epsilon : ℝ) ≤
        totalLength hypot (mkLines [⟨0, 0⟩, ⟨1.0008, 0⟩, ⟨2.0016, 0⟩, ⟨3, 0⟩]) /
          ((3 : Int) : ℝ) / 1000 ∧
      getSegmentPoints hypot [⟨0, 0⟩, ⟨1.0008, 0⟩, ⟨2.0016, 0⟩, ⟨3, 0⟩] 3 =
        Except.error (Panic.indexOutOfRange 3 3) := by
  have hL : totalLength hypot (mkLines [⟨0, 0⟩, ⟨1.0008, 0⟩, ⟨2.0016, 0⟩, ⟨3, 0⟩]) = 3 := by
    simp only [mkLines, totalLength, List.foldl, hypot_horizontal]
    norm_num [abs_of_nonneg]
  refine ⟨?_, ?_, run_drift_ahead⟩
  · rw [hL]; norm_num
  · rw [hL]; norm_num [epsilon]

/-- C4, as stated, fails: the walk reads `lines` out of range, both at
`lines[lastLine]` (two equal points, `N = 2`: the read `lines[1]` of one line)
and at `lines[lastLine+1]` (`0, 1.0008, 2.0016, 3`, `N = 3`: the read `lines[3]`
of three lines). -/
theorem walk_reads_out_of_range :
    getSegmentPoints hypot [⟨0, 0⟩, ⟨0, 0⟩] 2 = Except.error (Panic.indexOutOfRange 1 1) ∧
      getSegmentPoints hypot [⟨0, 0⟩, ⟨1.0008, 0⟩, ⟨2.0016, 0⟩, ⟨3, 0⟩] 3 =
        Except.error (Panic.indexOutOfRange 3 3) :=
  ⟨run_single_point_pair, run_drift_ahead⟩

/-- C4, amended: `getSegmentPoints` has no guard and no `ArcLengthOverrun`
result; a run that does not return a point sequence ends with the
index-out-of-range panic of a read of `lines` at index `len(lines)`, one past
the last line. -/
theorem failure_is_read_past_last_line (Len : Line K → K) (points : List (Vec K)) (N : Int)
    (e : Panic) (h : getSegmentPoints Len points N = Except.error e) :
    e = Panic.indexOutOfRange (mkLines points).length (mkLines points).length := by
  unfold getSegmentPoints at h
  simp only at h
  split_ifs at h with h0
  · exact outerLoop_error Len _ _ _ _ _ e (Nat.zero_le _) h
  · cases h
    have : (mkLines points).length = 0 := by omega
    rw [this]

/-- The amended C4 at `0, 1.0008, 2.0016, 3` with `N = 3`: the panic is the read
`lines[3]` of three lines. -/
theorem failure_is_read_past_last_line_witness :
    getSegmentPoints hypot [⟨0, 0⟩, ⟨1.0008, 0⟩, ⟨2.0016, 0⟩, ⟨3, 0⟩] 3 =
        Except.error (Panic.indexOutOfRange 3 3) ∧
      Panic.indexOutOfRange 3 3 = Panic.indexOutOfRange
        (mkLines ([⟨0, 0⟩, ⟨1.0008, 0⟩, ⟨2.0016, 0⟩, ⟨3, 0⟩] : List (Vec ℝ))).length
        (mkLines ([⟨0, 0⟩, ⟨1.0008, 0⟩, ⟨2.0016, 0⟩, ⟨3, 0⟩] : List (Vec ℝ))).length :=
  ⟨run_drift_ahead, failure_is_read_past_last_line hypot _ 3 _ run_drift_ahead⟩

/-- C5: whenever `getSegmentPoints` returns, every returned point lies on some
line of the input polyline: it is `f*A + (1-f)*B` for the endpoints `A`, `B` of
some `lines[j]` and some `f` with `0 ≤ f ≤ 1` (for every `N`, so for `N ≥ 1`). -/
theorem returned_points_on_lines {Len : Line K → K} (hE : IsEuclid Len)
    (points : List (Vec K)) (N : Int) (out : List (Vec K))
    (h : getSegmentPoints Len points N = Except.ok out) :
    ∀ P ∈ out, ∃ (j : Nat) (hj : j < (mkLines points).length) (f : K), 0 ≤ f ∧ f ≤ 1 ∧
      P.X = f * (mkLines points)[j].A.X + (1 - f) * (mkLines points)[j].B.X ∧
      P.Y = f * (mkLines points)[j].A.Y + (1 - f) * (mkLines points)[j].B.Y := by
  obtain ⟨h0, pts, ss, r1, r2, r3, r4⟩ := getSegmentPoints_spec hE points N out h
  intro P hP
  rw [r1] at hP
  obtain ⟨s, j, hj, f, hf0, hf1, hPe, _⟩ := forall₂_mem _ _ _ r3 P hP
  refine ⟨j, hj, f, hf0, hf1, ?_, ?_⟩
  · rw [hPe]; rfl
  · rw [hPe]; rfl

/-- C5 at the line from `(0,0)` to `(2,0)` with `N = 2`, over the reals. -/
theorem returned_points_on_lines_witness :
    IsEuclid hypot ∧
      getSegmentPoints hypot [⟨0, 0⟩, ⟨2, 0⟩] 2 = Except.ok [⟨0, 0⟩, ⟨1, 0⟩, ⟨2, 0⟩] ∧
      ∀ P ∈ ([⟨0, 0⟩, ⟨1, 0⟩, ⟨2, 0⟩] : List (Vec ℝ)),
        ∃ (j : Nat) (hj : j < (mkLines ([⟨0, 0⟩, ⟨2, 0⟩] : List (Vec ℝ))).length) (f : ℝ),
          0 ≤ f ∧ f ≤ 1 ∧
          P.X = f * (mkLines ([⟨0, 0⟩, ⟨2, 0⟩] : List (Vec ℝ)))[j].A.X +
            (1 - f) * (mkLines ([⟨0, 0⟩, ⟨2, 0⟩] : List (Vec ℝ)))[j].B.X ∧
          P.Y = f * (mkLines ([⟨0, 0⟩, ⟨2, 0⟩] : List (Vec ℝ)))[j].A.Y +
            (1 - f) * (mkLines ([⟨0, 0⟩, ⟨2, 0⟩] : List (Vec ℝ)))[j].B.Y :=
  ⟨hypot_isEuclid, run_halves, returned_points_on_lines hypot_isEuclid _ 2 _ run_halves⟩

/-- C8: whenever `getSegmentPoints` returns, for any `N`, the first returned
point is exactly the first input point. -/
theorem first_point_is_first_input (Len : Line K → K) (points : List (Vec K)) (N : Int)
    (out : List (Vec K)) (h : getSegmentPoints Len points N = Except.ok out) :
    ∃ p, points.head? = some p ∧ out.head? = some p := by
  obtain ⟨p, pts, hp, ho, _⟩ := getSegmentPoints_shape Len points N out h
  exact ⟨p, hp, by rw [ho]; rfl⟩

/-- C8 at `0, 0.9992, 1.9984, 2` with `N = 2`, over the reals. -/
theorem first_point_is_first_input_witness :
    getSegmentPoints hypot [⟨0, 0⟩, ⟨0.9992, 0⟩, ⟨1.9984, 0⟩, ⟨2, 0⟩] 2 =
        Except.ok [⟨0, 0⟩, ⟨0.9992, 0⟩, ⟨1.9984, 0⟩] ∧
      ∃ p, ([⟨0, 0⟩, ⟨0.9992, 0⟩, ⟨1.9984, 0⟩, ⟨2, 0⟩] : List (Vec ℝ)).head? = some p ∧
        ([⟨0, 0⟩, ⟨0.9992, 0⟩, ⟨1.9984, 0⟩] : List (Vec ℝ)).head? = some p :=
  ⟨run_drift_behind, first_point_is_first_input hypot _ 2 _ run_drift_behind⟩

/-- C10, as stated, fails: for no point and for a single point, with the
`numberOfSegments = 10` of `run`, `getSegmentPoints` ends at the read `lines[0]`
of an empty `lines`, the index-out-of-range panic. -/
theorem too_few_points_panic :
    getSegmentPoints hypot [] 10 = Except.error (Panic.indexOutOfRange 0 0) ∧
      getSegmentPoints hypot [⟨400, 300⟩] 10 = Except.error (Panic.indexOutOfRange 0 0) := by
  constructor <;> simp [getSegmentPoints, mkLines]

/-- C10, amended: for fewer than 2 points the first loop builds no line, and
`getSegmentPoints` returns no point sequence, for any `N`: the run ends at the
read `lines[0]`, with the index-out-of-range panic for index `0` and length
`0`; the code has no `InsufficientPoints` result. -/
theorem too_few_points (Len : Line K → K) (points : List (Vec K)) (N : Int)
    (h : points.length < 2) :
    mkLines points = [] ∧
      getSegmentPoints Len points N = Except.error (Panic.indexOutOfRange 0 0) := by
  have hl := mkLines_length points
  have h0 : mkLines points = [] := List.length_eq_zero.mp (by omega)
  refine ⟨h0, ?_⟩
  unfold getSegmentPoints
  simp only
  rw [dif_neg (by rw [h0]; simp), h0]
  rfl

/-- The amended C10 at the single point `(400, 300)` with `N = 10`. -/
theorem too_few_points_witness :
    ([⟨400, 300⟩] : List (Vec ℝ)).length < 2 ∧
      mkLines ([⟨400, 300⟩] : List (Vec ℝ)) = [] ∧
      getSegmentPoints hypot [⟨400, 300⟩] 10 = Except.error (Panic.indexOutOfRange 0 0) :=
  ⟨by decide, too_few_points hypot [⟨400, 300⟩] 10 (by decide)⟩

/-- C11, as stated, fails: for the two points `(0,0), (2,0)` and
`numberOfSegments = 0` or `-3` the outer loop does not run and
`getSegmentPoints` returns the one-point sequence `[(0,0)]`. -/
theorem nonpositive_count_returns :
    getSegmentPoints hypot [⟨0, 0⟩, ⟨2, 0⟩] 0 = Except.ok [⟨0, 0⟩] ∧
      getSegmentPoints hypot [⟨0, 0⟩, ⟨2, 0⟩] (-3) = Except.ok [⟨0, 0⟩] := by
  constructor
  · rw [getSegmentPoints_cons]
    rfl
  · rw [getSegmentPoints_cons]
    rfl

/-- C11, amended: for at least 2 points and `N < 1` the outer loop does not
run, and `getSegmentPoints` returns the one-point sequence of the first input
point; the code has no `InvalidSegmentCount` result. -/
theorem nonpositive_count_result (Len : Line K → K) (points : List (Vec K)) (N : Int)
    (h2 : 2 ≤ points.length) (hN : N < 1) :
    ∃ p, points.head? = some p ∧ getSegmentPoints Len points N = Except.ok [p] := by
  cases points with
  | nil => simp at h2
  | cons p ps =>
    cases ps with
    | nil => simp at h2
    | cons q rest =>
      refine ⟨p, rfl, ?_⟩
      rw [getSegmentPoints_cons, Int.toNat_of_nonpos (by omega)]
      rfl

/-- The amended C11 at the two points `(0,0), (2,0)` with `N = -3`. -/
theorem nonpositive_count_result_witness :
    2 ≤ ([⟨0, 0⟩, ⟨2, 0⟩] : List (Vec ℝ)).length ∧ (-3 : Int) < 1 ∧
      ∃ p, ([⟨0, 0⟩, ⟨2, 0⟩] : List (Vec ℝ)).head? = some p ∧
        getSegmentPoints hypot [⟨0, 0⟩, ⟨2, 0⟩] (-3) = Except.ok [p] :=
  ⟨by decide, by decide, nonpositive_count_result hypot _ (-3) (by decide) (by decide)⟩

/-- C16: whenever `getSegmentPoints` returns, for any integer `N`, the
returned sequence has exactly `max(N,0) + 1` points. -/
theorem returned_length (Len : Line K → K) (points : List (Vec K)) (N : Int)
    (out : List (Vec K)) (h : getSegmentPoints Len points N = Except.ok out) :
    (out.length : Int) = max N 0 + 1 := by
  obtain ⟨p, pts, _, ho, hl⟩ := getSegmentPoints_shape Len points N out h
  rw [ho, List.length_cons, hl]
  push_cast
  rw [Int.toNat_eq_max]

/-- C16 at `0, 0.9992, 1.9984, 2` with `N = 2`: three points. -/
theorem returned_length_witness :
    getSegmentPoints hypot [⟨0, 0⟩, ⟨0.9992, 0⟩, ⟨1.9984, 0⟩, ⟨2, 0⟩] 2 =
        Except.ok [⟨0, 0⟩, ⟨0.9992, 0⟩, ⟨1.9984, 0⟩] ∧
      ((([⟨0, 0⟩, ⟨0.9992, 0⟩, ⟨1.9984, 0⟩] : List (Vec ℝ)).length : Nat) : Int) =
        max 2 0 + 1 :=
  ⟨run_drift_behind, returned_length hypot _ 2 _ run_drift_behind⟩

/-- C12, as stated, fails: two equal points (total length `0`) and the two
points `(0,0), (0.0005,0)` (total length `0.0005`), each with `N = 1`, have a
total length of at most `epsilon * N`, and `getSegmentPoints` returns the two
input points. -/
theorem degenerate_length_returns :
    totalLength hypot (mkLines [⟨0, 0⟩, ⟨0, 0⟩]) ≤ epsilon * ((1 : Int) : ℝ) ∧
      getSegmentPoints hypot [⟨0, 0⟩, ⟨0, 0⟩] 1 = Except.ok [⟨0, 0⟩, ⟨0, 0⟩] ∧
      totalLength hypot (mkLines [⟨0, 0⟩, ⟨0.0005, 0⟩]) ≤ epsilon * ((1 : Int) : ℝ) ∧
      getSegmentPoints hypot [⟨0, 0⟩, ⟨0.0005, 0⟩] 1 = Except.ok [⟨0, 0⟩, ⟨0.0005, 0⟩] := by
  have hL0 : totalLength hypot (mkLines [⟨0, 0⟩, ⟨0, 0⟩]) = 0 := by
    simp only [mkLines, totalLength, List.foldl, hypot_horizontal]
    norm_num
  have hL1 : totalLength hypot (mkLines [⟨0, 0⟩, ⟨0.0005, 0⟩]) = 0.0005 := by
    simp only [mkLines, totalLength, List.foldl, hypot_horizontal]
    norm_num [abs_of_nonneg]
  have e0 : (1 : Int).toNat = 0 + 1 := rfl
  refine ⟨?_, ?_, ?_, ?_⟩
  · rw [hL0]; norm_num [epsilon]
  · rw [getSegmentPoints_cons, hL0]
    simp only [mkLines]
    rw [e0, outerLoop_succ_ok _ _ _ _ _ ⟨1, ⟨0, 0⟩⟩ _
      (outerBody_snap _ _ _ _ ⟨⟨0, 0⟩, ⟨0, 0⟩⟩ ⟨⟨0, 0⟩, ⟨0, 0⟩⟩ 0 0 rfl
        (by rw [innerLoop_stop] <;> norm_num [hypot_horizontal, epsilon]) rfl
        (by norm_num [epsilon]))]
    rfl
  · rw [hL1]; norm_num [epsilon]
  · rw [getSegmentPoints_cons, hL1]
    simp only [mkLines]
    rw [e0, outerLoop_succ_ok _ _ _ _ _ ⟨1, ⟨0.0005, 0⟩⟩ _
      (outerBody_snap _ _ _ _ ⟨⟨0, 0⟩, ⟨0.0005, 0⟩⟩ ⟨⟨0, 0⟩, ⟨0.0005, 0⟩⟩ 0.0005 0 rfl
        (by rw [innerLoop_stop] <;> norm_num [hypot_horizontal, epsilon, abs_of_nonneg]) rfl
        (by norm_num [epsilon]))]
    rfl

/-- C12, amended: for at least 2 points and `N ≥ 1` with a total length of at
most `epsilon * N`, `getSegmentPoints` makes no length check and has no
`DegenerateCurve` result: the inner loop never advances (`step ≤ epsilon`), and
the call either returns exactly `N + 1` points or ends with the
index-out-of-range panic at index `len(lines)`; when all points are the same
point it returns `N + 1` copies of it if `N ≤ len(lines)`, and panics
otherwise. -/
theorem degenerate_length_walk {Len : Line K → K} (hE : IsEuclid Len)
    (points : List (Vec K)) (N : Int) (h2 : 2 ≤ points.length) (hN : 1 ≤ N)
    (hL : totalLength Len (mkLines points) ≤ epsilon * (N : K)) :
    (∀ (c : Cursor K) (h : c.lastLine < (mkLines points).length),
        innerLoop Len (mkLines points) (totalLength Len (mkLines points) / (N : K))
          (Len ⟨c.lastPoint, (mkLines points)[c.lastLine].B⟩) c.lastLine =
          Except.ok (Len ⟨c.lastPoint, (mkLines points)[c.lastLine].B⟩, c.lastLine)) ∧
      ((∃ out, getSegmentPoints Len points N = Except.ok out ∧
          out.length = N.toNat + 1) ∨
        getSegmentPoints Len points N = Except.error
          (Panic.indexOutOfRange (mkLines points).length (mkLines points).length)) ∧
      (∀ p, (∀ q ∈ points, q = p) →
        getSegmentPoints Len points N =
          if N.toNat ≤ (mkLines points).length then
            Except.ok (List.replicate (N.toNat + 1) p)
          else
            Except.error
              (Panic.indexOutOfRange (mkLines points).length (mkLines points).length)) := by
  have hNpos : (0 : K) < (N : K) := by exact_mod_cast hN
  have hstep : totalLength Len (mkLines points) / (N : K) ≤ epsilon := by
    rw [div_le_iff₀ hNpos]
    exact hL
  refine ⟨?_, ?_, ?_⟩
  · intro c h
    apply innerLoop_stop
    have := hE.nonneg ⟨c.lastPoint, (mkLines points)[c.lastLine].B⟩
    intro hgt
    linarith
  · cases hr : getSegmentPoints Len points N with
    | ok out =>
      left
      obtain ⟨p, pts, _, ho, hl⟩ := getSegmentPoints_shape Len points N out hr
      exact ⟨out, rfl, by rw [ho, List.length_cons, hl]⟩
    | error e =>
      right
      unfold getSegmentPoints at hr
      simp only at hr
      have hl := mkLines_length points
      rw [dif_pos (by omega)] at hr
      rw [outerLoop_error Len _ _ _ _ _ e (Nat.zero_le _) hr]
  · intro p hp
    obtain ⟨m, hm⟩ : ∃ m, points.length = m + 2 := ⟨points.length - 2, by omega⟩
    have hrep : points = List.replicate (m + 2) p := by
      rw [List.eq_replicate_iff]
      exact ⟨hm, hp⟩
    rw [hrep, getSegmentPoints_replicate hE, mkLines_replicate, List.length_replicate]

/-- The amended C12 at two equal points with `N = 1`. -/
theorem degenerate_length_walk_witness :
    IsEuclid hypot ∧ 2 ≤ ([⟨0, 0⟩, ⟨0, 0⟩] : List (Vec ℝ)).length ∧ (1 : Int) ≤ 1 ∧
      totalLength hypot (mkLines [⟨0, 0⟩, ⟨0, 0⟩]) ≤ epsilon * ((1 : Int) : ℝ) ∧
      getSegmentPoints hypot [⟨0, 0⟩, ⟨0, 0⟩] 1 =
        if (1 : Int).toNat ≤ (mkLines ([⟨0, 0⟩, ⟨0, 0⟩] : List (Vec ℝ))).length then
          Except.ok (List.replicate ((1 : Int).toNat + 1) ⟨0, 0⟩)
        else
          Except.error (Panic.indexOutOfRange
            (mkLines ([⟨0, 0⟩, ⟨0, 0⟩] : List (Vec ℝ))).length
            (mkLines ([⟨0, 0⟩, ⟨0, 0⟩] : List (Vec ℝ))).length) := by
  have hL : totalLength hypot (mkLines [⟨0, 0⟩, ⟨0, 0⟩]) ≤ epsilon * ((1 : Int) : ℝ) := by
    simp only [mkLines, totalLength, List.foldl, hypot_horizontal]
    norm_num [epsilon]
  exact ⟨hypot_isEuclid, by decide, by decide, hL,
    (degenerate_length_walk hypot_isEuclid [⟨0, 0⟩, ⟨0, 0⟩] 1 (by decide) (by decide) hL).2.2
      ⟨0, 0⟩ (by simp)⟩

/-- C13: the sampling loop of `run`, with `dt = 0.5` and the test `t < 100.0`,
for any curve and any fuel of more than 200 iterations: it stops by its test
after 200 iterations, not 201, with the points at the parametric values
`i * dt / 100` for `i = 0, ..., 199`; the last of them is `0.995`, and the
curve is not evaluated at `1`. -/
theorem runSample_stops_short (curvePoint : K → Vec K) (n : Nat) :
    runSample curvePoint (201 + n) =
        some ((List.range 200).map (fun i : Nat =>
          (⟨(curvePoint ((i : K) * dt / 100)).X * scaleX + offsetX,
            (curvePoint ((i : K) * dt / 100)).Y * scaleY + offsetY⟩ : Vec K))) ∧
      ((199 : Nat) : K) * dt / 100 = 995 / 1000 ∧
      ∀ i ∈ List.range 200, (i : K) * dt / 100 < 1 := by
  refine ⟨?_, ?_, ?_⟩
  · have h := runSampleLoop_from curvePoint 200 0 (201 + n) [] (by omega) (by omega)
    rw [Nat.cast_zero, zero_mul, List.nil_append, ← List.range_eq_range'] at h
    exact h
  · unfold dt
    norm_num
  · intro i hi
    rw [List.mem_range] at hi
    have h1 : (i : K) ≤ 199 := by exact_mod_cast (show i ≤ 199 by omega)
    unfold dt
    linarith

/-- C15: for any points, any `N` and any first cursor point, the walk ends with
a result, a point sequence or the panic. Each inner-loop iteration increases
`lastLine` by one and the inner loop stays below `len(lines)`; the outer loop
starts at most `max(N,0)` iterations; and the inner-loop advances plus the
boundary snaps of the whole walk are at most `len(lines)`. -/
theorem walk_is_bounded (Len : Line K → K) (points : List (Vec K)) (N : Int) (P : Vec K) :
    ((∃ out, getSegmentPoints Len points N = Except.ok out) ∨
        ∃ e, getSegmentPoints Len points N = Except.error e) ∧
      (∀ (localLength : K) (lastLine : Nat) (r : K × Nat),
        innerLoop Len (mkLines points) (totalLength Len (mkLines points) / (N : K))
          localLength lastLine = Except.ok r →
        r.2 = lastLine + innerAdvances Len (mkLines points)
          (totalLength Len (mkLines points) / (N : K)) localLength lastLine) ∧
      (∀ (localLength : K) (lastLine : Nat), lastLine < (mkLines points).length →
        lastLine + innerAdvances Len (mkLines points)
          (totalLength Len (mkLines points) / (N : K)) localLength lastLine <
            (mkLines points).length) ∧
      walkIterations Len (mkLines points) (totalLength Len (mkLines points) / (N : K))
        N.toNat ⟨0, P⟩ ≤ N.toNat ∧
      walkAdvances Len (mkLines points) (totalLength Len (mkLines points) / (N : K))
        N.toNat ⟨0, P⟩ ≤ (mkLines points).length := by
  refine ⟨?_, ?_, ?_, walkIterations_le Len _ _ _ _, ?_⟩
  · cases hr : getSegmentPoints Len points N with
    | ok out => exact Or.inl ⟨out, rfl⟩
    | error e => exact Or.inr ⟨e, rfl⟩
  · intro localLength lastLine r h
    exact innerAdvances_eq Len _ _ _ _ _ h
  · intro localLength lastLine h
    exact innerAdvances_lt Len _ _ _ _ h
  · have := walkAdvances_le Len (mkLines points)
      (totalLength Len (mkLines points) / (N : K)) N.toNat ⟨0, P⟩ (Nat.zero_le _)
    simpa using this

end Claims

end SegmentedCurve
